import Mathlib

/-!
Verification of the ColoSwitch core (`app.py`): dominant-color extraction
(`get_colors`), color-code parsing (`parse_color_code`) and tolerance-based
color replacement (`replace_color_with_tolerance`).

Modelling conventions:
* Python strings are modelled as `List Char`.
* Pixels are RGBA quadruples of `Nat`s (the numpy array holds `uint8`
  values, i.e. each channel is `< 256`; claims that depend on this bound
  state it as a hypothesis).
* The numpy subtraction `rgb - np.array([r1, g1, b1])` is performed in
  `int64`, so differences are exact signed integers; we model them in `ℤ`.
* The replacement mask compares `sqrt(Σ diff²) <= tolerance` in `float64`.
  For an integer tolerance `t` (the UI slider has step 1, range [0,100])
  and an integer squared distance `d ≤ 3·255²`, the float comparison is
  exact and equivalent to `d ≤ t²`, which is how we state it.
* `int(float(s))` for a regex-matched numeral `s` (digits, optional dot,
  optional digits) is modelled as the value `N` of the digits before the
  dot.  Correctly-rounded float parsing can disagree: a fractional part
  within half an ulp of `N+1` rounds the float up to `N+1` (e.g.
  `float("0.99999999999999999") = 1.0`), and integers at or above 2^53
  round by themselves.  Every theorem that touches this model therefore
  carries the decidable side condition `intFloatAgrees`, which confines
  it to inputs where the model provably equals `int(float(s))`: see the
  ulp argument at that definition.
-/

namespace ColoSwitch

/-! ### Characters, digits and hex rendering -/

/-- Decimal value of a digit list, most significant first
(`natFromDigits ['2','6'] = 26`). -/
def natFromDigits (ds : List Char) : Nat :=
  ds.foldl (fun a c => 10 * a + (c.toNat - '0'.toNat)) 0

/-- Python's `%x` / `f"{n:02x}"` rendering for a nonnegative integer:
lowercase minimal hex digits, left-padded with `'0'` to width at least 2.
`Nat.toDigits 16` produces exactly Python's lowercase hex digits. -/
def pyHex2 (n : Nat) : List Char :=
  let ds := Nat.toDigits 16 n
  if ds.length = 1 then '0' :: ds else ds

/-- A lowercase hexadecimal digit `0-9a-f`. -/
def isLowerHexDigit (c : Char) : Bool :=
  c.isDigit || ('a' ≤ c && c ≤ 'f')

/-- The spec's `CanonicalColor` shape: exactly 7 characters, `'#'`
followed by 6 lowercase hex digits. -/
def isCanonicalColor (cs : List Char) : Bool :=
  match cs with
  | c :: rest => c == '#' && rest.length == 6 && rest.all isLowerHexDigit
  | [] => false

/-- Python's `re` class `\s` on the ASCII range (the only whitespace the
claims exercise): space, tab, newline, carriage return, vertical tab,
form feed. -/
def isPySpace (c : Char) : Bool :=
  c = ' ' || c = '\t' || c = '\n' || c = '\r' || c = '\x0b' || c = '\x0c'

/-! ### The regex `rgba?\((\d+\.?\d*),\s*(\d+\.?\d*),\s*(\d+\.?\d*)`

`re.match` anchors at the start of the string only: anything after the
third numeral is ignored (no closing parenthesis is required).  Each
group `\d+\.?\d*` is one or more digits, an optional dot, and zero or
more digits; greedy matching is deterministic here because the character
after the group in the pattern (`,` or end) can never be a digit or a
dot, so backtracking never helps. -/

/-- Match one group `\d+\.?\d*` at the head of `cs`; return the matched
lexeme and the rest of the string. -/
def numGroup (cs : List Char) : Option (List Char × List Char) :=
  if cs.takeWhile Char.isDigit = [] then none
  else
    match cs.dropWhile Char.isDigit with
    | '.' :: rest =>
        some (cs.takeWhile Char.isDigit ++ '.' :: rest.takeWhile Char.isDigit,
              rest.dropWhile Char.isDigit)
    | rest => some (cs.takeWhile Char.isDigit, rest)

/-- Consume one expected literal character. -/
def expectChar (c : Char) : List Char → Option (List Char)
  | x :: rest => if x = c then some rest else none
  | [] => none

/-- The full regex match: literal `rgb`, optional `a`, literal `(`, then
three groups separated by `,\s*` (a comma directly after each group, then
optional whitespace).  Returns the three matched lexemes; anything after
the third group is ignored. -/
def rgbMatch (cs : List Char) : Option (List Char × List Char × List Char) := do
  let s1 ← expectChar 'r' cs
  let s2 ← expectChar 'g' s1
  let s3 ← expectChar 'b' s2
  let s4 ← expectChar '(' ((expectChar 'a' s3).getD s3)
  let (g1, s5) ← numGroup s4
  let s6 ← expectChar ',' s5
  let (g2, s7) ← numGroup (s6.dropWhile isPySpace)
  let s8 ← expectChar ',' s7
  let (g3, _) ← numGroup (s8.dropWhile isPySpace)
  pure (g1, g2, g3)

/-- Model of `int(float(s))` for a lexeme matched by `\d+\.?\d*`: the value
of the digits before the dot.  This equals Python only on inputs where
the correctly-rounded `float` of the lexeme stays inside `[N, N+1)` for
`N` the integer part; `intFloatAgrees` below carves out that domain, and
every theorem that rests on this model assumes it. -/
def truncNum (g : List Char) : Nat :=
  natFromDigits (g.takeWhile Char.isDigit)

/-- The fraction digits of a lexeme matched by `\d+\.?\d*` (empty when
there is no dot). -/
def fracDigits (g : List Char) : List Char :=
  (g.dropWhile Char.isDigit).drop 1

/-- The domain on which `truncNum g` provably equals Python's
`int(float(g))`.  Write `N := truncNum g`, `f := fracDigits g` read as the
fraction `f/10^k < 1`, so the lexeme's exact value is `v = N + f/10^k`.

`float` is correctly rounded (round to nearest, ties to even) and
monotone.  If `N + 1 ≤ 2^53` then `N` and `N + 1` are exactly
representable, so `N = float(N) ≤ float(v) ≤ float(N+1) = N+1`, and
`int(float(v)) = N` unless `float(v)` rounds all the way up to `N+1`.
That happens only when `v` is at or above the midpoint between `N+1` and
its predecessor double: the gap below `N+1` is `2^(a-52)` with
`2^a < N+1`, so the half-gap is below `(N+1)/2^53`, and demanding
`f/10^k ≤ 1 - (N+1)/2^53` keeps `v` strictly below every such midpoint.
(For `v < 1` any rounding inside `[0,1)` truncates to `0 = N` as well.)
Both parts are plain decidable `Nat` inequalities. -/
def intFloatAgrees (g : List Char) : Prop :=
  truncNum g + 1 ≤ 2 ^ 53 ∧
  natFromDigits (fracDigits g) * 2 ^ 53 ≤
    10 ^ (fracDigits g).length * (2 ^ 53 - (truncNum g + 1))

instance (g : List Char) : Decidable (intFloatAgrees g) := by
  unfold intFloatAgrees; infer_instance

/-- The error message prefix of the `ValueError` raised by
`parse_color_code` (the message carries the offending string). -/
def errPrefix : List Char := "不正なカラーコード: ".data

/-- Function `parse_color_code` from `app.py`: a 7-character string starting with
`#` is returned as-is; otherwise the `rgb()/rgba()` regex is tried and the
three channels are rendered with `f"#{r:02x}{g:02x}{b:02x}"`; otherwise a
`ValueError` carrying the input is raised (modelled as `Except.error`). -/
def parse_color_code (color : List Char) : Except (List Char) (List Char) :=
  if color.head? = some '#' ∧ color.length = 7 then
    .ok color
  else
    match rgbMatch color with
    | some (g1, g2, g3) =>
        .ok ('#' :: (pyHex2 (truncNum g1) ++ pyHex2 (truncNum g2) ++
                     pyHex2 (truncNum g3)))
    | none => .error (errPrefix ++ color)

/-! ### Hex decoding (`int(color[i:i+2], 16)`) -/

/-- Value of one hex digit as accepted by Python's `int(_, 16)`
(`0-9`, `a-f`, `A-F`). -/
def hexDigitVal (c : Char) : Option Nat :=
  if c.isDigit then some (c.toNat - '0'.toNat)
  else if 'a' ≤ c ∧ c ≤ 'f' then some (c.toNat - 'a'.toNat + 10)
  else if 'A' ≤ c ∧ c ≤ 'F' then some (c.toNat - 'A'.toNat + 10)
  else none

/-- Model of `int(⟨h,l⟩, 16)`. -/
def hexByteVal (h l : Char) : Option Nat := do
  let x ← hexDigitVal h
  let y ← hexDigitVal l
  pure (16 * x + y)

/-- Model of `[int(color[i:i+2], 16) for i in (1, 3, 5)]`: decode characters 1-6 of
a color string as three hex bytes; characters past position 6 are ignored
by the slices.  Strings shorter than 7 characters are mapped to `none`
(every string `replace_color_with_tolerance` receives from
`parse_color_code` has length ≥ 7, so the short case is never exercised;
in Python it raises `ValueError` on the empty slice). -/
def decodeHexColor (cs : List Char) : Option (Nat × Nat × Nat) :=
  match cs with
  | _ :: c1 :: c2 :: c3 :: c4 :: c5 :: c6 :: _ => do
      let r ← hexByteVal c1 c2
      let g ← hexByteVal c3 c4
      let b ← hexByteVal c5 c6
      pure (r, g, b)
  | _ => none

/-! ### Generic token and string constructors for the functional grammar -/

/-- A numeral token of the grammar `\d+\.?\d*`: integer digits `d`,
optionally a dot followed by the (possibly empty) fraction digits. -/
def mkNumTok (d : List Char) (f : Option (List Char)) : List Char :=
  d ++ (match f with
        | none => []
        | some fs => '.' :: fs)

/-- An `rgb(`/`rgba(` functional string: three numeral tokens, each
followed directly by a comma and optional whitespace, and an arbitrary
tail `suffix` after the third token (the regex only matches a prefix). -/
def mkRgbString (alphaForm : Bool) (t1 w1 t2 w2 t3 suffix : List Char) :
    List Char :=
  (match alphaForm with
   | true => ['r', 'g', 'b', 'a', '(']
   | false => ['r', 'g', 'b', '(']) ++
  (t1 ++ ',' :: (w1 ++ (t2 ++ ',' :: (w2 ++ (t3 ++ suffix)))))

/-! ### Pixels and `replace_color_with_tolerance` -/

/-- One RGBA pixel of the numpy array.  The array's dtype is `uint8`, so
in every state reachable from a real image each channel is `< 256`;
claims that depend on that bound state it explicitly. -/
structure Pixel where
  r : Nat
  g : Nat
  b : Nat
  a : Nat
deriving DecidableEq, Repr

/-- Model of `np.sum(diff ** 2, axis=2)` for one pixel: the squared Euclidean RGB
distance to `(r1, g1, b1)`.  The subtraction happens after numpy promotes
`uint8 - int64` to `int64`, hence exact signed arithmetic. -/
def sqDist (p : Pixel) (r1 g1 b1 : Nat) : Int :=
  ((p.r : Int) - (r1 : Int)) ^ 2 + ((p.g : Int) - (g1 : Int)) ^ 2 +
    ((p.b : Int) - (b1 : Int)) ^ 2

/-- The mask `(distance <= tolerance) & (alpha > 0)` for one pixel.  The
code compares `sqrt(sqDist) <= tolerance` in `float64`; for an integer
tolerance (the slider has `step=1`) this is exactly `sqDist ≤ tolerance²`
(sqrt is monotone, and `float64` rounding cannot flip the comparison at
these magnitudes: `sqrt(t²+1) - t ≥ 1/(2·100)` far exceeds one ulp). -/
def qualifies (r1 g1 b1 tol : Nat) (p : Pixel) : Bool :=
  decide (sqDist p r1 g1 b1 ≤ (tol : Int) ^ 2) && decide (0 < p.a)

/-- The per-pixel effect of `arr[mask, 0] = r2; arr[mask, 1] = g2;
arr[mask, 2] = b2`: a qualifying pixel gets the target RGB, alpha and
non-qualifying pixels are untouched. -/
def replacePixel (r1 g1 b1 r2 g2 b2 tol : Nat) (p : Pixel) : Pixel :=
  if qualifies r1 g1 b1 tol p then { p with r := r2, g := g2, b := b2 }
  else p

/-- Function `replace_color_with_tolerance` from `app.py` on the RGBA pixel grid:
decode the two hex colors, then apply the masked overwrite to every
pixel.  A color whose hex bytes do not decode raises `ValueError` in
Python (modelled as `none`). -/
def replace_color_with_tolerance (img : List (List Pixel))
    (color_from color_to : List Char) (tol : Nat) :
    Option (List (List Pixel)) :=
  match decodeHexColor color_from, decodeHexColor color_to with
  | some (r1, g1, b1), some (r2, g2, b2) =>
      some (img.map fun row => row.map (replacePixel r1 g1 b1 r2 g2 b2 tol))
  | _, _ => none

/-! ### `get_colors`

The claims about `get_colors` quantify over the *sampled* pixels, i.e.
the 100×100 RGBA grid produced by `image.convert("RGBA").resize((100,
100))`; the resampling itself is outside the model, so `get_colors` takes
the flattened list of resampled pixels.  `np.unique(_, axis=0)` returns
the distinct rows in lexicographic order with their counts;
`counts.argsort()` sorts ascending by count with an unspecified tie
order (numpy's default quicksort is unstable), so we realise it with
insertion sort — every claim is independent of the tie-break. -/

/-- The RGB triple of a pixel (`arr[:, :, :3]` for one pixel). -/
def pixelRGB (p : Pixel) : Nat × Nat × Nat := (p.r, p.g, p.b)

/-- Model of `rgb[mask]`: RGB triples of the pixels with `alpha > 0`. -/
def rgbFiltered (pixels : List Pixel) : List (Nat × Nat × Nat) :=
  (pixels.filter fun p => decide (0 < p.a)).map pixelRGB

/-- Lexicographic order on RGB triples (the order of `np.unique` rows). -/
def rgbLE (x y : Nat × Nat × Nat) : Prop :=
  x.1 < y.1 ∨ (x.1 = y.1 ∧ (x.2.1 < y.2.1 ∨ (x.2.1 = y.2.1 ∧ x.2.2 ≤ y.2.2)))

instance : DecidableRel rgbLE := fun x y => by
  unfold rgbLE; infer_instance

/-- Ascending order by count on `(triple, count)` pairs (`argsort`). -/
def countLE (x y : (Nat × Nat × Nat) × Nat) : Prop := x.2 ≤ y.2

instance : DecidableRel countLE := fun x y => by
  unfold countLE; infer_instance

instance : IsTotal ((Nat × Nat × Nat) × Nat) countLE :=
  ⟨fun a b => Nat.le_total a.2 b.2⟩

instance : IsTrans ((Nat × Nat × Nat) × Nat) countLE :=
  ⟨fun _ _ _ h1 h2 => Nat.le_trans h1 h2⟩

/-- Model of `np.unique(rgb_filtered, axis=0)`: the distinct RGB triples in
lexicographic order. -/
def uniqueRGB (pixels : List Pixel) : List (Nat × Nat × Nat) :=
  List.insertionSort rgbLE (rgbFiltered pixels).dedup

/-- Model of `counts.argsort()[-10:][::-1]` applied to the `(unique, counts)`
pairs: sort ascending by count, keep the last ten, reverse — the ten
most frequent triples in descending count order, paired with their
counts. -/
def rankedPairs (pixels : List Pixel) : List ((Nat × Nat × Nat) × Nat) :=
  let withCounts :=
    (uniqueRGB pixels).map fun c => (c, (rgbFiltered pixels).count c)
  ((List.insertionSort countLE withCounts).reverse).take 10

/-- Rendering `f"#{r:02x}{g:02x}{b:02x}"`. -/
def hexColor (c : Nat × Nat × Nat) : List Char :=
  '#' :: (pyHex2 c.1 ++ pyHex2 c.2.1 ++ pyHex2 c.2.2)

/-- Function `get_colors` from `app.py` on the resampled pixel list. -/
def get_colors (pixels : List Pixel) : List (List Char) :=
  if rgbFiltered pixels = [] then []
  else (rankedPairs pixels).map fun pr => hexColor pr.1

/-! ### Helper lemmas -/

theorem forall2_map_self {α β : Type _} (f : α → β) :
    ∀ l : List α, List.Forall₂ (fun a b => b = f a) l (l.map f)
  | [] => List.Forall₂.nil
  | _ :: xs => List.Forall₂.cons rfl (forall2_map_self f xs)

theorem qualifies_iff {r1 g1 b1 tol : Nat} {p : Pixel} :
    qualifies r1 g1 b1 tol p = true ↔
      (sqDist p r1 g1 b1 ≤ (tol : Int) ^ 2 ∧ 0 < p.a) := by
  simp [qualifies]

theorem replacePixel_alpha (r1 g1 b1 r2 g2 b2 tol : Nat) (p : Pixel) :
    (replacePixel r1 g1 b1 r2 g2 b2 tol p).a = p.a := by
  unfold replacePixel; split <;> rfl

theorem replace_eq_some {img out : List (List Pixel)} {cf ct : List Char}
    {tol r1 g1 b1 r2 g2 b2 : Nat}
    (hf : decodeHexColor cf = some (r1, g1, b1))
    (ht : decodeHexColor ct = some (r2, g2, b2))
    (h : replace_color_with_tolerance img cf ct tol = some out) :
    out = img.map fun row => row.map (replacePixel r1 g1 b1 r2 g2 b2 tol) := by
  unfold replace_color_with_tolerance at h
  simp only [hf, ht] at h
  exact (Option.some.inj h).symm

theorem replace_eq_some_decode {img out : List (List Pixel)}
    {cf ct : List Char} {tol : Nat}
    (h : replace_color_with_tolerance img cf ct tol = some out) :
    ∃ r1 g1 b1 r2 g2 b2 : Nat,
      decodeHexColor cf = some (r1, g1, b1) ∧
      decodeHexColor ct = some (r2, g2, b2) ∧
      out = img.map fun row => row.map (replacePixel r1 g1 b1 r2 g2 b2 tol) := by
  rcases hf : decodeHexColor cf with _ | ⟨⟨r1, g1, b1⟩⟩
  · unfold replace_color_with_tolerance at h
    rw [hf] at h
    simp at h
  · rcases ht : decodeHexColor ct with _ | ⟨⟨r2, g2, b2⟩⟩
    · unfold replace_color_with_tolerance at h
      rw [hf, ht] at h
      simp at h
    · exact ⟨r1, g1, b1, r2, g2, b2, rfl, rfl, replace_eq_some hf ht h⟩

theorem map_self_of_id {α : Type _} {f : α → α} (l : List α)
    (h : ∀ a ∈ l, f a = a) : l.map f = l := by
  induction l with
  | nil => rfl
  | cons x xs ih =>
      simp only [List.map_cons, h x (by simp)]
      rw [ih (fun a ha => h a (by simp [ha]))]

theorem replacePixel_self_zero (r1 g1 b1 : Nat) (p : Pixel) :
    replacePixel r1 g1 b1 r1 g1 b1 0 p = p := by
  obtain ⟨pr, pg, pb, pa⟩ := p
  unfold replacePixel
  split
  · next h =>
    obtain ⟨hd, -⟩ := qualifies_iff.mp h
    have hd0 : ((pr : Int) - r1) ^ 2 + ((pg : Int) - g1) ^ 2 +
        ((pb : Int) - b1) ^ 2 ≤ 0 := by
      simpa [sqDist] using hd
    have e1 : ((pr : Int) - r1) ^ 2 = 0 := by
      nlinarith [sq_nonneg ((pr : Int) - (r1 : Int)),
        sq_nonneg ((pg : Int) - (g1 : Int)), sq_nonneg ((pb : Int) - (b1 : Int))]
    have e2 : ((pg : Int) - g1) ^ 2 = 0 := by
      nlinarith [sq_nonneg ((pr : Int) - (r1 : Int)),
        sq_nonneg ((pg : Int) - (g1 : Int)), sq_nonneg ((pb : Int) - (b1 : Int))]
    have e3 : ((pb : Int) - b1) ^ 2 = 0 := by
      nlinarith [sq_nonneg ((pr : Int) - (r1 : Int)),
        sq_nonneg ((pg : Int) - (g1 : Int)), sq_nonneg ((pb : Int) - (b1 : Int))]
    have f1 : pr = r1 := by exact_mod_cast sub_eq_zero.mp (sq_eq_zero_iff.mp e1)
    have f2 : pg = g1 := by exact_mod_cast sub_eq_zero.mp (sq_eq_zero_iff.mp e2)
    have f3 : pb = b1 := by exact_mod_cast sub_eq_zero.mp (sq_eq_zero_iff.mp e3)
    simp [f1, f2, f3]
  · rfl

/-- C1: a pixel's RGB is overwritten with the target RGB exactly when its
squared Euclidean RGB distance to the source color is at most `tolerance²`
(equivalently, distance ≤ tolerance) and its alpha is positive; all other
pixels are copied unchanged; alpha-0 pixels are never replaced; a pixel at
distance exactly `tolerance` is replaced.  The output is the pointwise
`replacePixel` image of the input. -/
theorem replace_qualifying_pixels
    (img out : List (List Pixel)) (cf ct : List Char)
    (tol r1 g1 b1 r2 g2 b2 : Nat)
    (_htol : tol ≤ 100)
    (hf : decodeHexColor cf = some (r1, g1, b1))
    (ht : decodeHexColor ct = some (r2, g2, b2))
    (hrep : replace_color_with_tolerance img cf ct tol = some out) :
    List.Forall₂ (List.Forall₂ fun pIn pOut =>
        pOut = replacePixel r1 g1 b1 r2 g2 b2 tol pIn) img out
    ∧ (∀ p : Pixel, sqDist p r1 g1 b1 ≤ (tol : Int) ^ 2 → 0 < p.a →
        replacePixel r1 g1 b1 r2 g2 b2 tol p = ⟨r2, g2, b2, p.a⟩)
    ∧ (∀ p : Pixel, ¬ (sqDist p r1 g1 b1 ≤ (tol : Int) ^ 2 ∧ 0 < p.a) →
        replacePixel r1 g1 b1 r2 g2 b2 tol p = p)
    ∧ (∀ p : Pixel, p.a = 0 → replacePixel r1 g1 b1 r2 g2 b2 tol p = p)
    ∧ (∀ p : Pixel, sqDist p r1 g1 b1 = (tol : Int) ^ 2 → 0 < p.a →
        replacePixel r1 g1 b1 r2 g2 b2 tol p = ⟨r2, g2, b2, p.a⟩) := by
  obtain rfl := replace_eq_some hf ht hrep
  refine ⟨?_, ?_, ?_, ?_, ?_⟩
  · refine (forall2_map_self _ img).imp ?_
    intro row orow h
    subst h
    exact forall2_map_self _ row
  · intro p h1 h2
    have hq : qualifies r1 g1 b1 tol p = true := qualifies_iff.mpr ⟨h1, h2⟩
    simp [replacePixel, hq]
  · intro p h
    unfold replacePixel
    rw [if_neg (fun hq => h (qualifies_iff.mp hq))]
  · intro p h
    unfold replacePixel
    rw [if_neg (fun hq => by
      have hpos := (qualifies_iff.mp hq).2
      rw [h] at hpos
      exact lt_irrefl 0 hpos)]
  · intro p h1 h2
    have hq : qualifies r1 g1 b1 tol p = true :=
      qualifies_iff.mpr ⟨le_of_eq h1, h2⟩
    simp [replacePixel, hq]

/-- C2: the output of `replace_color_with_tolerance` has the same
dimensions as the input, and every output pixel's alpha equals the
corresponding input pixel's alpha. -/
theorem replace_shape_alpha
    (img out : List (List Pixel)) (cf ct : List Char) (tol : Nat)
    (hrep : replace_color_with_tolerance img cf ct tol = some out) :
    out.length = img.length
    ∧ List.Forall₂ (fun rIn rOut => rOut.length = rIn.length
        ∧ List.Forall₂ (fun pIn pOut : Pixel => pOut.a = pIn.a) rIn rOut)
        img out := by
  obtain ⟨r1, g1, b1, r2, g2, b2, hf, ht, rfl⟩ := replace_eq_some_decode hrep
  refine ⟨by simp, ?_⟩
  refine (forall2_map_self _ img).imp ?_
  intro row orow h
  subst h
  refine ⟨by simp, ?_⟩
  refine (forall2_map_self _ row).imp ?_
  intro pIn pOut hh
  subst hh
  exact replacePixel_alpha r1 g1 b1 r2 g2 b2 tol pIn

/-- C3 counterexample: replacing `#000000` by itself with tolerance 30 is
not the identity — the pixel `(10,0,0,255)` lies within tolerance of
black, so its RGB is snapped to `(0,0,0)`. -/
theorem replace_self_not_identity :
    replace_color_with_tolerance [[⟨10, 0, 0, 255⟩]]
        "#000000".data "#000000".data 30 ≠ some [[⟨10, 0, 0, 255⟩]] := by
  decide

/-- C3 amended: with `from == to == X`, the result is pixel-for-pixel
identical to the input when `tolerance = 0`; for a general tolerance every
qualifying pixel (within tolerance of `X`, alpha > 0) has its RGB
overwritten with `X`'s RGB, so pixels merely near `X` are altered. -/
theorem replace_self_identity_tol_zero
    (img : List (List Pixel)) (X : List Char) (r1 g1 b1 : Nat)
    (hX : decodeHexColor X = some (r1, g1, b1)) :
    replace_color_with_tolerance img X X 0 = some img
    ∧ ∀ (tol : Nat) (p : Pixel), qualifies r1 g1 b1 tol p = true →
        replacePixel r1 g1 b1 r1 g1 b1 tol p = ⟨r1, g1, b1, p.a⟩ := by
  constructor
  · unfold replace_color_with_tolerance
    simp only [hX]
    rw [map_self_of_id img (fun row _ =>
      map_self_of_id row (fun p _ => replacePixel_self_zero r1 g1 b1 p))]
  · intro tol p h
    simp [replacePixel, h]

theorem replace_qualifying_pixels_witness :
    replace_color_with_tolerance [[⟨250, 5, 5, 255⟩]] "#ff0000".data
        "#0000ff".data 10 = some [[⟨0, 0, 255, 255⟩]]
    ∧ replacePixel 255 0 0 0 0 255 10 ⟨250, 5, 5, 255⟩ = ⟨0, 0, 255, 255⟩ :=
  ⟨rfl,
   (replace_qualifying_pixels [[⟨250, 5, 5, 255⟩]] [[⟨0, 0, 255, 255⟩]]
       "#ff0000".data "#0000ff".data 10 255 0 0 0 0 255 (by decide) rfl rfl
       rfl).2.1 ⟨250, 5, 5, 255⟩ (by decide) (by decide)⟩

theorem replace_shape_alpha_witness :
    replace_color_with_tolerance [[⟨250, 5, 5, 255⟩, ⟨0, 9, 9, 0⟩]]
        "#ff0000".data "#0000ff".data 10 =
      some [[⟨0, 0, 255, 255⟩, ⟨0, 9, 9, 0⟩]]
    ∧ (([[⟨0, 0, 255, 255⟩, ⟨0, 9, 9, 0⟩]] : List (List Pixel)).length =
        ([[⟨250, 5, 5, 255⟩, ⟨0, 9, 9, 0⟩]] : List (List Pixel)).length
      ∧ List.Forall₂ (fun rIn rOut => rOut.length = rIn.length
          ∧ List.Forall₂ (fun pIn pOut : Pixel => pOut.a = pIn.a) rIn rOut)
          [[⟨250, 5, 5, 255⟩, ⟨0, 9, 9, 0⟩]]
          [[⟨0, 0, 255, 255⟩, ⟨0, 9, 9, 0⟩]]) :=
  ⟨rfl,
   replace_shape_alpha [[⟨250, 5, 5, 255⟩, ⟨0, 9, 9, 0⟩]]
     [[⟨0, 0, 255, 255⟩, ⟨0, 9, 9, 0⟩]] "#ff0000".data "#0000ff".data 10 rfl⟩

theorem replace_self_identity_tol_zero_witness :
    decodeHexColor "#0a0000".data = some (10, 0, 0)
    ∧ (replace_color_with_tolerance [[⟨10, 0, 0, 255⟩, ⟨9, 9, 9, 0⟩]]
          "#0a0000".data "#0a0000".data 0 =
        some [[⟨10, 0, 0, 255⟩, ⟨9, 9, 9, 0⟩]]
      ∧ ∀ (tol : Nat) (p : Pixel), qualifies 10 0 0 tol p = true →
          replacePixel 10 0 0 10 0 0 tol p = ⟨10, 0, 0, p.a⟩) :=
  ⟨rfl,
   replace_self_identity_tol_zero [[⟨10, 0, 0, 255⟩, ⟨9, 9, 9, 0⟩]]
     "#0a0000".data 10 0 0 rfl⟩

/-! ### Parser theorems -/

theorem parse_color_code_of_none {cs : List Char}
    (h1 : ¬ (cs.head? = some '#' ∧ cs.length = 7))
    (h2 : rgbMatch cs = none) :
    parse_color_code cs = .error (errPrefix ++ cs) := by
  unfold parse_color_code
  rw [if_neg h1, h2]

/-- C5: every 7-character string beginning with `#` is returned unchanged
by `parse_color_code`; the remaining 6 characters are not inspected. -/
theorem parse_hash_passthrough (cs : List Char)
    (h1 : cs.head? = some '#') (h2 : cs.length = 7) :
    parse_color_code cs = .ok cs := by
  unfold parse_color_code
  rw [if_pos ⟨h1, h2⟩]

theorem parse_hash_passthrough_witness :
    ("#zzzzzz".data.head? = some '#' ∧ "#zzzzzz".data.length = 7)
    ∧ parse_color_code "#zzzzzz".data = .ok "#zzzzzz".data :=
  ⟨⟨rfl, rfl⟩, parse_hash_passthrough "#zzzzzz".data rfl rfl⟩

/-- C7: every input that is neither a 7-character `#`-string nor matched
by the `rgb()/rgba()` regex fails with the `ValueError` whose message
carries the offending input string. -/
theorem parse_invalid_error (cs : List Char)
    (h1 : ¬ (cs.head? = some '#' ∧ cs.length = 7))
    (h2 : rgbMatch cs = none) :
    parse_color_code cs = .error (errPrefix ++ cs) :=
  parse_color_code_of_none h1 h2

theorem parse_invalid_error_witness :
    (¬ ("not-a-color".data.head? = some '#' ∧ "not-a-color".data.length = 7)
      ∧ rgbMatch "not-a-color".data = none)
    ∧ parse_color_code "not-a-color".data =
        .error (errPrefix ++ "not-a-color".data) :=
  ⟨⟨by decide, rfl⟩, parse_invalid_error "not-a-color".data (by decide) rfl⟩

/-- C10: the functional grammar is matched by prefix only — a missing
closing parenthesis or arbitrary trailing text after the third numeral
still parses — while a minus sign on the first channel makes the regex
fail, so the input is rejected with the parse error. -/
theorem parse_prefix_matching :
    parse_color_code "rgb(1, 2, 3".data = .ok "#010203".data
    ∧ parse_color_code "rgb(1, 2, 3junk".data = .ok "#010203".data
    ∧ (∀ rest : List Char,
        parse_color_code ('r' :: 'g' :: 'b' :: '(' :: '-' :: rest) =
          .error (errPrefix ++ ('r' :: 'g' :: 'b' :: '(' :: '-' :: rest)))
    ∧ (∀ rest : List Char,
        parse_color_code ('r' :: 'g' :: 'b' :: 'a' :: '(' :: '-' :: rest) =
          .error (errPrefix ++ ('r' :: 'g' :: 'b' :: 'a' :: '(' :: '-' :: rest)))
    ∧ parse_color_code "rgb(-1, 0, 0)".data =
        .error (errPrefix ++ "rgb(-1, 0, 0)".data) :=
  ⟨rfl, rfl, fun _ => rfl, fun _ => rfl, rfl⟩

theorem parse_prefix_matching_witness :
    parse_color_code "rgb(-7)".data = .error (errPrefix ++ "rgb(-7)".data) :=
  parse_prefix_matching.2.2.1 ['7', ')']

/-! ### Sampler theorems -/

theorem rankedPairs_mem {pixels : List Pixel} {pr : (Nat × Nat × Nat) × Nat}
    (h : pr ∈ rankedPairs pixels) :
    pr.2 = (rgbFiltered pixels).count pr.1
    ∧ ∃ p ∈ pixels, 0 < p.a ∧ pixelRGB p = pr.1 := by
  unfold rankedPairs at h
  have h1 := List.mem_reverse.mp (List.mem_of_mem_take h)
  have h2 := (List.perm_insertionSort countLE _).mem_iff.mp h1
  obtain ⟨c, hc, rfl⟩ := List.mem_map.mp h2
  refine ⟨rfl, ?_⟩
  unfold uniqueRGB at hc
  have hc3 : c ∈ rgbFiltered pixels :=
    List.mem_dedup.mp ((List.mem_insertionSort rgbLE).mp hc)
  unfold rgbFiltered at hc3
  obtain ⟨p, hp, rfl⟩ := List.mem_map.mp hc3
  obtain ⟨hp1, hp2⟩ := List.mem_filter.mp hp
  exact ⟨p, hp1, by simpa using hp2, rfl⟩

theorem get_colors_eq_map (pixels : List Pixel) :
    get_colors pixels = (rankedPairs pixels).map fun pr => hexColor pr.1 := by
  unfold get_colors
  split
  · next hf =>
    unfold rankedPairs uniqueRGB
    rw [hf]
    rfl
  · rfl

theorem rankedPairs_sorted (pixels : List Pixel) :
    List.Pairwise (fun x y : (Nat × Nat × Nat) × Nat => y.2 ≤ x.2)
      (rankedPairs pixels) := by
  unfold rankedPairs
  refine List.Pairwise.sublist (List.take_sublist _ _) ?_
  rw [List.pairwise_reverse]
  exact List.sorted_insertionSort countLE _

/-- C8: an image all of whose (resampled) pixels are fully transparent
yields the empty palette — a regular return value, not an error. -/
theorem get_colors_all_transparent (pixels : List Pixel)
    (h : ∀ p ∈ pixels, p.a = 0) : get_colors pixels = [] := by
  have hf : rgbFiltered pixels = [] := by
    unfold rgbFiltered
    rw [List.filter_eq_nil_iff.mpr (fun p hp => by simp [h p hp])]
    rfl
  unfold get_colors
  rw [if_pos hf]

theorem get_colors_all_transparent_witness :
    (∀ p ∈ ([⟨5, 6, 7, 0⟩, ⟨200, 0, 0, 0⟩] : List Pixel), p.a = 0)
    ∧ get_colors [⟨5, 6, 7, 0⟩, ⟨200, 0, 0, 0⟩] = [] :=
  ⟨by decide, get_colors_all_transparent _ (by decide)⟩

/-- C9: the palette has at most 10 entries, renders the ranked pairs in
non-increasing count order, each count being the pair's frequency among
the alpha-positive sampled pixels, and every palette color is the exact
RGB triple of at least one sampled pixel with positive alpha. -/
theorem get_colors_ranked (pixels : List Pixel) :
    (get_colors pixels).length ≤ 10
    ∧ get_colors pixels = (rankedPairs pixels).map (fun pr => hexColor pr.1)
    ∧ List.Pairwise (fun x y : (Nat × Nat × Nat) × Nat => y.2 ≤ x.2)
        (rankedPairs pixels)
    ∧ ∀ pr ∈ rankedPairs pixels,
        pr.2 = (rgbFiltered pixels).count pr.1
        ∧ ∃ p ∈ pixels, 0 < p.a ∧ pixelRGB p = pr.1 := by
  have hmap := get_colors_eq_map pixels
  refine ⟨?_, hmap, rankedPairs_sorted pixels, fun pr h => rankedPairs_mem h⟩
  rw [hmap]
  simp only [List.length_map]
  unfold rankedPairs
  simp only [List.length_take]
  exact min_le_left _ _

theorem get_colors_ranked_witness :
    (get_colors [⟨255, 0, 0, 255⟩, ⟨255, 0, 0, 9⟩, ⟨0, 255, 0, 255⟩,
        ⟨9, 9, 9, 0⟩]).length ≤ 10
    ∧ get_colors [⟨255, 0, 0, 255⟩, ⟨255, 0, 0, 9⟩, ⟨0, 255, 0, 255⟩,
        ⟨9, 9, 9, 0⟩] = ["#ff0000".data, "#00ff00".data] :=
  ⟨(get_colors_ranked [⟨255, 0, 0, 255⟩, ⟨255, 0, 0, 9⟩, ⟨0, 255, 0, 255⟩,
      ⟨9, 9, 9, 0⟩]).1, rfl⟩

/-! ### Canonical-color shape -/

set_option maxRecDepth 4000 in
theorem pyHex2_two_digit :
    ∀ n < 256, (pyHex2 n).length = 2 ∧ (pyHex2 n).all isLowerHexDigit = true := by
  decide

theorem hash_render_canonical {x y z : Nat} (hx : x < 256) (hy : y < 256)
    (hz : z < 256) :
    isCanonicalColor ('#' :: (pyHex2 x ++ pyHex2 y ++ pyHex2 z)) = true := by
  obtain ⟨lx, ax⟩ := pyHex2_two_digit x hx
  obtain ⟨ly, ay⟩ := pyHex2_two_digit y hy
  obtain ⟨lz, az⟩ := pyHex2_two_digit z hz
  unfold isCanonicalColor
  simp [List.all_append, lx, ly, lz, ax, ay, az, List.length_append]

/-- C4 counterexample: `parse_color_code` accepts `"#zzzzzz"` through the
7-character `#` branch and returns it unchanged, but that string is not
`#` followed by 6 lowercase hex digits. -/
theorem parse_produces_non_canonical :
    parse_color_code "#zzzzzz".data = .ok "#zzzzzz".data
    ∧ isCanonicalColor "#zzzzzz".data = false :=
  ⟨rfl, rfl⟩

/-- C4 amended: palette strings from `get_colors` are always canonical
(`#` + 6 lowercase hex digits) because the channels are 8-bit; strings
produced through the `rgb()/rgba()` grammar are canonical whenever each
channel value computed by the program — the parsed float truncated toward
zero — is ≤ 255, stated here as `truncNum ≤ 255` together with
`intFloatAgrees`, which confines each matched lexeme to the domain where
`truncNum` equals `int(float(_))` (so float round-up such as
`255.99999999999999999 → 256` is excluded from the hypotheses rather
than silently mismodelled); a string accepted through the `#` grammar is
returned as-is and is 7 characters starting with `#`, but its remaining
characters are not validated as hex digits. -/
theorem canonical_color_amended :
    (∀ pixels : List Pixel,
        (∀ p ∈ pixels, p.r < 256 ∧ p.g < 256 ∧ p.b < 256) →
        ∀ s ∈ get_colors pixels, isCanonicalColor s = true)
    ∧ (∀ cs g1 g2 g3, ¬ (cs.head? = some '#' ∧ cs.length = 7) →
        rgbMatch cs = some (g1, g2, g3) →
        intFloatAgrees g1 → intFloatAgrees g2 → intFloatAgrees g3 →
        truncNum g1 ≤ 255 → truncNum g2 ≤ 255 → truncNum g3 ≤ 255 →
        ∃ out, parse_color_code cs = .ok out ∧ isCanonicalColor out = true)
    ∧ (∀ cs : List Char, cs.head? = some '#' → cs.length = 7 →
        parse_color_code cs = .ok cs) := by
  refine ⟨?_, ?_, ?_⟩
  · intro pixels hb s hs
    rw [get_colors_eq_map] at hs
    obtain ⟨pr, hpr, rfl⟩ := List.mem_map.mp hs
    obtain ⟨-, p, hp, -, hrgb⟩ := rankedPairs_mem hpr
    obtain ⟨h1, h2, h3⟩ := hb p hp
    rw [← hrgb]
    exact hash_render_canonical h1 h2 h3
  · intro cs g1 g2 g3 h1 h2 _ _ _ hb1 hb2 hb3
    have hp : parse_color_code cs =
        .ok ('#' :: (pyHex2 (truncNum g1) ++ pyHex2 (truncNum g2) ++
              pyHex2 (truncNum g3))) := by
      unfold parse_color_code
      rw [if_neg h1, h2]
    exact ⟨_, hp, hash_render_canonical (Nat.lt_succ_of_le hb1)
      (Nat.lt_succ_of_le hb2) (Nat.lt_succ_of_le hb3)⟩
  · intro cs h1 h2
    unfold parse_color_code
    rw [if_pos ⟨h1, h2⟩]

theorem canonical_color_amended_witness :
    ∃ out, parse_color_code "rgb(26, 43, 60)".data = .ok out
      ∧ isCanonicalColor out = true :=
  canonical_color_amended.2.1 "rgb(26, 43, 60)".data
    ['2', '6'] ['4', '3'] ['6', '0'] (by decide) rfl
    (by decide) (by decide) (by decide)
    (by decide) (by decide) (by decide)

/-! ### The functional grammar in general form (claim C6) -/

theorem head?_cons_inj {x c : Char} {t : List Char}
    (h : (x :: t).head? = some c) : x = c := by
  simpa using h

theorem takeWhile_all {p : Char → Bool} {l : List Char}
    (h : ∀ c ∈ l, p c = true) : l.takeWhile p = l := by
  induction l with
  | nil => rfl
  | cons x xs ih =>
      simp [List.takeWhile_cons, h x (by simp),
        ih fun c hc => h c (by simp [hc])]

theorem takeWhile_nil_of_head {p : Char → Bool} {l : List Char}
    (h : ∀ c, l.head? = some c → p c = false) : l.takeWhile p = [] := by
  cases l with
  | nil => rfl
  | cons x xs => simp [List.takeWhile_cons, h x rfl]

theorem dropWhile_self_of_head {p : Char → Bool} {l : List Char}
    (h : ∀ c, l.head? = some c → p c = false) : l.dropWhile p = l := by
  cases l with
  | nil => rfl
  | cons x xs => simp [List.dropWhile_cons, h x rfl]

theorem isPySpace_of_digit {c : Char} (h : c.isDigit = true) :
    isPySpace c = false := by
  by_contra hc
  rw [Bool.not_eq_false] at hc
  unfold isPySpace at hc
  simp only [Bool.or_eq_true, decide_eq_true_eq] at hc
  rcases hc with ((((rfl | rfl) | rfl) | rfl) | rfl) | rfl <;>
    exact absurd h (by decide)

theorem numGroup_token {d : List Char} {f : Option (List Char)}
    {rest : List Char}
    (hd : d ≠ []) (hda : ∀ c ∈ d, c.isDigit = true)
    (hf : ∀ fs, f = some fs → ∀ c ∈ fs, c.isDigit = true)
    (hr : ∀ c, rest.head? = some c → c.isDigit = false)
    (hr2 : f = none → ∀ c, rest.head? = some c → c ≠ '.') :
    numGroup (mkNumTok d f ++ rest) = some (mkNumTok d f, rest) := by
  cases f with
  | none =>
    have h1 : (d ++ rest).takeWhile Char.isDigit = d := by
      rw [List.takeWhile_append_of_pos hda, takeWhile_nil_of_head hr,
        List.append_nil]
    have h2 : (d ++ rest).dropWhile Char.isDigit = rest := by
      rw [List.dropWhile_append_of_pos hda, dropWhile_self_of_head hr]
    unfold mkNumTok numGroup
    simp only [List.append_nil, h1, h2]
    rw [if_neg hd]
    cases rest with
    | nil => rfl
    | cons c t =>
      have hc : c ≠ '.' := hr2 rfl c rfl
      split
      · next heq =>
        injection heq with hh
        exact absurd hh hc
      · rfl
  | some fs =>
    have hdot : ∀ c : Char, ('.' :: (fs ++ rest)).head? = some c →
        c.isDigit = false := by
      intro c hcm
      have := head?_cons_inj hcm
      subst this
      decide
    have h1 : (d ++ ('.' :: (fs ++ rest))).takeWhile Char.isDigit = d := by
      rw [List.takeWhile_append_of_pos hda, takeWhile_nil_of_head hdot,
        List.append_nil]
    have h2 : (d ++ ('.' :: (fs ++ rest))).dropWhile Char.isDigit =
        '.' :: (fs ++ rest) := by
      rw [List.dropWhile_append_of_pos hda, dropWhile_self_of_head hdot]
    have h3 : (fs ++ rest).takeWhile Char.isDigit = fs := by
      rw [List.takeWhile_append_of_pos (hf fs rfl), takeWhile_nil_of_head hr,
        List.append_nil]
    have h4 : (fs ++ rest).dropWhile Char.isDigit = rest := by
      rw [List.dropWhile_append_of_pos (hf fs rfl), dropWhile_self_of_head hr]
    have hassoc : mkNumTok d (some fs) ++ rest = d ++ ('.' :: (fs ++ rest)) := by
      simp [mkNumTok]
    rw [hassoc]
    unfold numGroup
    simp only [h1, h2, h3, h4]
    rw [if_neg hd]
    rfl

theorem truncNum_mkNumTok {d : List Char} {f : Option (List Char)}
    (hda : ∀ c ∈ d, c.isDigit = true) :
    truncNum (mkNumTok d f) = natFromDigits d := by
  unfold truncNum mkNumTok
  cases f with
  | none => rw [List.append_nil, takeWhile_all hda]
  | some fs =>
      rw [List.takeWhile_append_of_pos hda,
        takeWhile_nil_of_head (by
          intro c hcm
          have := head?_cons_inj hcm
          subst this
          decide),
        List.append_nil]

/-- C6 counterexample: `rgb(300, 0, 0)` parses (no clamping), but channel
300 renders as the three hex digits `12c`, so the output has 8 characters
and is not three two-digit bytes. -/
theorem parse_rgb_not_two_digit :
    parse_color_code "rgb(300, 0, 0)".data = .ok "#12c0000".data
    ∧ pyHex2 300 = ['1', '2', 'c']
    ∧ "#12c0000".data.length = 8 :=
  ⟨rfl, rfl, rfl⟩

/-- C6 amended: an `rgb(r, g, b ...)`/`rgba(r, g, b, a)` string with
numeric channel tokens parses to `#` followed by the hex renderings of
the three channel values truncated toward zero; everything after the
third token (in particular any alpha component) is ignored; no clamping
is applied; each rendering is exactly two lowercase hex digits when the
truncated value is ≤ 255 (larger values render with more digits, see the
counterexample).  Each channel token carries the `intFloatAgrees` side
condition restricting the statement to tokens whose float parse does not
round up to the next integer — there `int(float(_))` is exactly the
value of the digits before the dot; tokens such as
`0.99999999999999999`, where Python's float rounds to `1.0`, fall
outside the hypotheses and outside this model. -/
theorem parse_rgb_functional
    (alphaForm : Bool) (d1 d2 d3 : List Char) (f1 f2 f3 : Option (List Char))
    (w1 w2 suffix : List Char)
    (hd1 : d1 ≠ []) (hd1a : ∀ c ∈ d1, c.isDigit = true)
    (hd2 : d2 ≠ []) (hd2a : ∀ c ∈ d2, c.isDigit = true)
    (hd3 : d3 ≠ []) (hd3a : ∀ c ∈ d3, c.isDigit = true)
    (hf1 : ∀ fs, f1 = some fs → ∀ c ∈ fs, c.isDigit = true)
    (hf2 : ∀ fs, f2 = some fs → ∀ c ∈ fs, c.isDigit = true)
    (hf3 : ∀ fs, f3 = some fs → ∀ c ∈ fs, c.isDigit = true)
    (hw1 : ∀ c ∈ w1, isPySpace c = true)
    (hw2 : ∀ c ∈ w2, isPySpace c = true)
    (hs1 : ∀ c, suffix.head? = some c → c.isDigit = false)
    (hs2 : f3 = none → ∀ c, suffix.head? = some c → c ≠ '.')
    (_hq1 : intFloatAgrees (mkNumTok d1 f1))
    (_hq2 : intFloatAgrees (mkNumTok d2 f2))
    (_hq3 : intFloatAgrees (mkNumTok d3 f3)) :
    parse_color_code (mkRgbString alphaForm (mkNumTok d1 f1) w1
        (mkNumTok d2 f2) w2 (mkNumTok d3 f3) suffix) =
      .ok ('#' :: (pyHex2 (natFromDigits d1) ++ pyHex2 (natFromDigits d2) ++
            pyHex2 (natFromDigits d3)))
    ∧ ∀ n : Nat, n ≤ 255 →
        (pyHex2 n).length = 2 ∧ (pyHex2 n).all isLowerHexDigit = true := by
  obtain ⟨c2, d2t, rfl⟩ := List.exists_cons_of_ne_nil hd2
  obtain ⟨c3, d3t, rfl⟩ := List.exists_cons_of_ne_nil hd3
  have comma_head : ∀ (X : List Char) (c : Char),
      (',' :: X).head? = some c → c.isDigit = false := by
    intro X c hc
    have := head?_cons_inj hc
    subst this
    decide
  have comma_dot : ∀ (X : List Char) (c : Char),
      (',' :: X).head? = some c → c ≠ '.' := by
    intro X c hc
    have := head?_cons_inj hc
    subst this
    decide
  have hg1 : ∀ X : List Char,
      numGroup (mkNumTok d1 f1 ++ ',' :: X) = some (mkNumTok d1 f1, ',' :: X) :=
    fun X => numGroup_token hd1 hd1a hf1 (comma_head X) (fun _ => comma_dot X)
  have hg2 : ∀ X : List Char,
      numGroup (mkNumTok (c2 :: d2t) f2 ++ ',' :: X) =
        some (mkNumTok (c2 :: d2t) f2, ',' :: X) :=
    fun X => numGroup_token hd2 hd2a hf2 (comma_head X) (fun _ => comma_dot X)
  have hg3 : numGroup (mkNumTok (c3 :: d3t) f3 ++ suffix) =
      some (mkNumTok (c3 :: d3t) f3, suffix) :=
    numGroup_token hd3 hd3a hf3 hs1 hs2
  have hmk2 : ∀ (X : List Char) (c : Char),
      (mkNumTok (c2 :: d2t) f2 ++ X).head? = some c → isPySpace c = false := by
    intro X c hc
    have hx : c2 = c := head?_cons_inj hc
    subst hx
    exact isPySpace_of_digit (hd2a c2 (by simp))
  have hmk3 : ∀ (X : List Char) (c : Char),
      (mkNumTok (c3 :: d3t) f3 ++ X).head? = some c → isPySpace c = false := by
    intro X c hc
    have hx : c3 = c := head?_cons_inj hc
    subst hx
    exact isPySpace_of_digit (hd3a c3 (by simp))
  have hR1 : (w1 ++ (mkNumTok (c2 :: d2t) f2 ++ ',' ::
        (w2 ++ (mkNumTok (c3 :: d3t) f3 ++ suffix)))).dropWhile isPySpace =
      mkNumTok (c2 :: d2t) f2 ++ ',' ::
        (w2 ++ (mkNumTok (c3 :: d3t) f3 ++ suffix)) := by
    rw [List.dropWhile_append_of_pos hw1, dropWhile_self_of_head (hmk2 _)]
  have hR2 : (w2 ++ (mkNumTok (c3 :: d3t) f3 ++ suffix)).dropWhile isPySpace =
      mkNumTok (c3 :: d3t) f3 ++ suffix := by
    rw [List.dropWhile_append_of_pos hw2, dropWhile_self_of_head (hmk3 _)]
  have hmatch : rgbMatch (mkRgbString alphaForm (mkNumTok d1 f1) w1
        (mkNumTok (c2 :: d2t) f2) w2 (mkNumTok (c3 :: d3t) f3) suffix) =
      some (mkNumTok d1 f1, mkNumTok (c2 :: d2t) f2, mkNumTok (c3 :: d3t) f3) := by
    cases alphaForm <;>
      simp [mkRgbString, rgbMatch, expectChar, hg1, hg2, hg3, hR1, hR2]
  have hhash : ¬ ((mkRgbString alphaForm (mkNumTok d1 f1) w1
        (mkNumTok (c2 :: d2t) f2) w2 (mkNumTok (c3 :: d3t) f3)
        suffix).head? = some '#' ∧
      (mkRgbString alphaForm (mkNumTok d1 f1) w1 (mkNumTok (c2 :: d2t) f2) w2
        (mkNumTok (c3 :: d3t) f3) suffix).length = 7) := by
    cases alphaForm <;>
    · intro hcontra
      have := head?_cons_inj hcontra.1
      exact absurd this (by decide)
  refine ⟨?_, fun n hn => pyHex2_two_digit n (Nat.lt_succ_of_le hn)⟩
  unfold parse_color_code
  rw [if_neg hhash, hmatch]
  show Except.ok ('#' :: (pyHex2 (truncNum (mkNumTok d1 f1)) ++
      pyHex2 (truncNum (mkNumTok (c2 :: d2t) f2)) ++
      pyHex2 (truncNum (mkNumTok (c3 :: d3t) f3)))) = _
  rw [truncNum_mkNumTok hd1a, truncNum_mkNumTok hd2a, truncNum_mkNumTok hd3a]

theorem parse_rgb_functional_witness :
    parse_color_code "rgba(26, 43, 60, 0.5)".data = .ok "#1a2b3c".data :=
  (parse_rgb_functional true ['2', '6'] ['4', '3'] ['6', '0'] none none none
    [' '] [' '] (',' :: ' ' :: '0' :: '.' :: '5' :: [')'])
    (by decide) (by decide) (by decide) (by decide) (by decide) (by decide)
    (fun fs h => nomatch h) (fun fs h => nomatch h) (fun fs h => nomatch h)
    (by decide) (by decide)
    (by
      intro c hc
      have := head?_cons_inj hc
      subst this
      decide)
    (by
      intro _ c hc
      have := head?_cons_inj hc
      subst this
      decide)
    (by decide) (by decide) (by decide)).1

end ColoSwitch

section examples
open ColoSwitch
example : parse_color_code "#1a2b3c".data = .ok "#1a2b3c".data := rfl
example : parse_color_code "#zzzzzz".data = .ok "#zzzzzz".data := rfl
example : parse_color_code "rgb(26, 43, 60)".data = .ok "#1a2b3c".data := rfl
example : parse_color_code "rgba(26, 43, 60, 0.5)".data = .ok "#1a2b3c".data := rfl
example : parse_color_code "not-a-color".data =
    .error (errPrefix ++ "not-a-color".data) := rfl
example : parse_color_code "rgb(1, 2, 3".data = .ok "#010203".data := rfl
example : parse_color_code "rgb(1, 2, 3junk".data = .ok "#010203".data := rfl
example : parse_color_code "rgb(300, 0, 0)".data = .ok "#12c0000".data := rfl
example : parse_color_code "rgb(-1, 0, 0)".data =
    .error (errPrefix ++ "rgb(-1, 0, 0)".data) := rfl
example : parse_color_code "rgb(12.9, 0, 0)".data = .ok "#0c0000".data := rfl
example : decodeHexColor "#ff0000".data = some (255, 0, 0) := rfl
example : decodeHexColor "#zzzzzz".data = none := rfl
example :
    replace_color_with_tolerance
      [[⟨255, 0, 0, 255⟩, ⟨0, 255, 0, 255⟩], [⟨0, 0, 0, 0⟩, ⟨250, 5, 5, 255⟩]]
      "#ff0000".data "#0000ff".data 10 =
    some [[⟨0, 0, 255, 255⟩, ⟨0, 255, 0, 255⟩],
          [⟨0, 0, 0, 0⟩, ⟨0, 0, 255, 255⟩]] := rfl
example :
    replace_color_with_tolerance [[⟨10, 0, 0, 255⟩]]
      "#000000".data "#000000".data 30 = some [[⟨0, 0, 0, 255⟩]] := rfl
example : get_colors [] = [] := rfl
example : get_colors [⟨1, 2, 3, 0⟩] = [] := rfl
example :
    get_colors [⟨255, 0, 0, 255⟩, ⟨255, 0, 0, 9⟩, ⟨0, 255, 0, 255⟩, ⟨9, 9, 9, 0⟩] =
    ["#ff0000".data, "#00ff00".data] := rfl
end examples
